import Mathlib

/-!
Verification of the ForexAPI scraper core against its natural-language
specification.  The Python sources (`app/services/scraper.py`,
`app/api/routes.py`, `app/models/exchange_rate.py`) are shallowly embedded:
epochs are `Int` (Python ints), fallible operations return `Option` or an
explicit result type, and stateful collaborators (HTTP responses, the SQLite
table, the per-instance cache, thread-completion order) are passed in and out
explicitly.
-/

namespace ForexAPI

/-! ## ChunkPlanner

Embedding of the 3-month splitting loop of `get_exchange_data`
(`scraper.py` lines 64-74):

    three_months = 90 * 24 * 60 * 60  # in seconds
    chunks = []
    current_from = from_date
    while current_from < to_date:
        current_to = min(current_from + three_months, to_date)
        chunks.append((str(current_from), str(current_to)))
        current_from = current_to + 1

The loop is rendered with a fuel argument; `(to - from).toNat` units of fuel
are always enough because every iteration advances `current_from` by at least
two seconds.  -/

def threeMonths : Int := 90 * 24 * 60 * 60

def planChunksAux (toE : Int) : Nat → Int → List (Int × Int)
  | 0, _ => []
  | fuel + 1, cur =>
    if cur < toE then
      (cur, min (cur + threeMonths) toE) ::
        planChunksAux toE fuel (min (cur + threeMonths) toE + 1)
    else []

def planChunks (fromE toE : Int) : List (Int × Int) :=
  planChunksAux toE (toE - fromE).toNat fromE

theorem threeMonths_eq : threeMonths = 7776000 := by norm_num [threeMonths]

theorem planChunksAux_nil (toE : Int) (fuel : Nat) (cur : Int) (h : toE ≤ cur) :
    planChunksAux toE fuel cur = [] := by
  cases fuel with
  | zero => rfl
  | succ n =>
    unfold planChunksAux
    rw [if_neg (by omega)]

theorem planChunksAux_ne_nil (toE : Int) (fuel : Nat) (cur : Int)
    (hfuel : (toE - cur).toNat ≤ fuel) (h : cur < toE) :
    planChunksAux toE fuel cur ≠ [] := by
  cases fuel with
  | zero => omega
  | succ n =>
    unfold planChunksAux
    rw [if_pos h]
    simp

theorem planChunksAux_head_fst (toE : Int) (fuel : Nat) (cur : Int)
    (p : Int × Int) (h : (planChunksAux toE fuel cur).head? = some p) :
    p.1 = cur := by
  cases fuel with
  | zero => simp [planChunksAux] at h
  | succ n =>
    unfold planChunksAux at h
    by_cases hlt : cur < toE
    · rw [if_pos hlt] at h
      simp only [List.head?_cons, Option.some.injEq] at h
      rw [← h]
    · rw [if_neg hlt] at h
      simp at h

theorem planChunksAux_length (toE : Int) (fuel : Nat) : ∀ cur : Int,
    (toE - cur).toNat ≤ fuel → cur < toE →
    (planChunksAux toE fuel cur).length = ((toE - cur + 7776000) / 7776001).toNat := by
  induction fuel with
  | zero => intro cur hfuel hlt; omega
  | succ n ih =>
    intro cur hfuel hlt
    unfold planChunksAux
    rw [if_pos hlt, threeMonths_eq]
    rcases le_or_lt toE (cur + 7776000) with hle | hgt
    · rw [min_eq_right hle, planChunksAux_nil toE n (toE + 1) (by omega)]
      simp only [List.length_cons, List.length_nil]
      omega
    · rw [min_eq_left (le_of_lt hgt)]
      rcases le_or_lt toE (cur + 7776000 + 1) with hend | hmore
      · rw [planChunksAux_nil toE n (cur + 7776000 + 1) (by omega)]
        simp only [List.length_cons, List.length_nil]
        omega
      · rw [List.length_cons, ih (cur + 7776000 + 1) (by omega) (by omega)]
        omega

theorem planChunksAux_chain (toE : Int) (fuel : Nat) : ∀ cur : Int,
    List.Chain' (fun p q : Int × Int => q.1 = p.2 + 1) (planChunksAux toE fuel cur) := by
  induction fuel with
  | zero => intro cur; simp [planChunksAux]
  | succ n ih =>
    intro cur
    unfold planChunksAux
    by_cases hlt : cur < toE
    · rw [if_pos hlt, List.chain'_cons']
      refine ⟨?_, ih _⟩
      intro q hq
      rw [planChunksAux_head_fst toE n _ q hq]
    · rw [if_neg hlt]
      simp

theorem planChunksAux_span (toE : Int) (fuel : Nat) : ∀ cur : Int,
    ∀ p ∈ planChunksAux toE fuel cur, p.1 ≤ p.2 ∧ p.2 - p.1 ≤ 7776000 := by
  induction fuel with
  | zero => intro cur p hp; simp [planChunksAux] at hp
  | succ n ih =>
    intro cur p hp
    unfold planChunksAux at hp
    by_cases hlt : cur < toE
    · rw [if_pos hlt, threeMonths_eq] at hp
      rcases List.mem_cons.mp hp with h | h
      · subst h
        constructor <;> simp <;> omega
      · exact ih _ p h
    · rw [if_neg hlt] at hp
      simp at hp

theorem planChunksAux_lastEnd (toE : Int) (fuel : Nat) : ∀ cur : Int,
    (toE - cur).toNat ≤ fuel → cur < toE →
    ((planChunksAux toE fuel cur).getLast?).map Prod.snd =
      some (if (7776001 : Int) ∣ (toE - cur) then toE - 1 else toE) := by
  induction fuel with
  | zero => intro cur hfuel hlt; omega
  | succ n ih =>
    intro cur hfuel hlt
    unfold planChunksAux
    rw [if_pos hlt, threeMonths_eq]
    rcases le_or_lt toE (cur + 7776000) with hle | hgt
    · rw [min_eq_right hle, planChunksAux_nil toE n (toE + 1) (by omega)]
      have hnd : ¬ (7776001 : Int) ∣ (toE - cur) := by omega
      rw [if_neg hnd]
      simp
    · rw [min_eq_left (le_of_lt hgt)]
      rcases le_or_lt toE (cur + 7776000 + 1) with hend | hmore
      · rw [planChunksAux_nil toE n (cur + 7776000 + 1) (by omega)]
        have hd : (7776001 : Int) ∣ (toE - cur) := by
          have : toE - cur = 7776001 := by omega
          rw [this]
        rw [if_pos hd]
        simp
        omega
      · have hne := planChunksAux_ne_nil toE n (cur + 7776000 + 1) (by omega) (by omega)
        obtain ⟨q, l, hql⟩ := List.exists_cons_of_ne_nil hne
        rw [hql, List.getLast?_cons_cons, ← hql,
          ih (cur + 7776000 + 1) (by omega) (by omega)]
        have hiff : (7776001 : Int) ∣ (toE - (cur + 7776000 + 1)) ↔
            (7776001 : Int) ∣ (toE - cur) := by
          constructor <;> intro hdd <;> omega
        by_cases hd : (7776001 : Int) ∣ (toE - cur)
        · rw [if_pos (hiff.mpr hd), if_pos hd]
        · rw [if_neg (fun hc => hd (hiff.mp hc)), if_neg hd]

/-- C1 (amended).  For `from_epoch < to_epoch` with span `D = to - from`
seconds, the chunk-planning loop of `get_exchange_data` produces exactly
`ceil(D / 7776001)` windows (not `ceil(D / 7776000) = ceil(S/90)` as claimed:
each iteration advances by `7776001` seconds because the next window starts at
`current_to + 1`), which are contiguous (each next start is the previous end
plus one second), hence non-overlapping and gap-free on integer epochs, each
spanning at most 90 days (7776000 seconds), with the first window's start
equal to `from_epoch`; the last window's end equals `to_epoch` except when
`7776001 ∣ D`, in which case it equals `to_epoch - 1`. -/
theorem chunkPlanner_plan_spec (f t : Int) (h : f < t) :
    (planChunks f t).length = ((t - f + 7776000) / 7776001).toNat ∧
    (planChunks f t).head?.map Prod.fst = some f ∧
    List.Chain' (fun p q : Int × Int => q.1 = p.2 + 1) (planChunks f t) ∧
    (∀ p ∈ planChunks f t, p.1 ≤ p.2 ∧ p.2 - p.1 ≤ 7776000) ∧
    ((planChunks f t).getLast?).map Prod.snd =
      some (if (7776001 : Int) ∣ (t - f) then t - 1 else t) := by
  refine ⟨planChunksAux_length t _ f le_rfl h, ?_, planChunksAux_chain t _ f,
    planChunksAux_span t _ f, planChunksAux_lastEnd t _ f le_rfl h⟩
  have hne := planChunksAux_ne_nil t (t - f).toNat f le_rfl h
  obtain ⟨q, l, hql⟩ := List.exists_cons_of_ne_nil hne
  have hfst := planChunksAux_head_fst t (t - f).toNat f q (by rw [hql]; rfl)
  unfold planChunks
  rw [hql]
  simp [hfst]

/-- Witness for C1: the amended planner specification instantiated on the
concrete one-day range `[0, 86400]`. -/
theorem chunkPlanner_plan_spec_witness :
    (0 : Int) < 86400 ∧
    ((planChunks 0 86400).length = (((86400 : Int) - 0 + 7776000) / 7776001).toNat ∧
    (planChunks 0 86400).head?.map Prod.fst = some 0 ∧
    List.Chain' (fun p q : Int × Int => q.1 = p.2 + 1) (planChunks 0 86400) ∧
    (∀ p ∈ planChunks 0 86400, p.1 ≤ p.2 ∧ p.2 - p.1 ≤ 7776000) ∧
    ((planChunks 0 86400).getLast?).map Prod.snd =
      some (if (7776001 : Int) ∣ ((86400 : Int) - 0) then 86400 - 1 else 86400)) :=
  ⟨by norm_num, chunkPlanner_plan_spec 0 86400 (by norm_num)⟩

/-- C1 counterexample.  On the range `[0, 7776001]` (90 days plus one
second, so `S = 90 + 1/86400` days and `ceil(S/90) = 2`, and `to_epoch` is
`7776001`), the loop produces a single window `(0, 7776000)`: the window count
is `1`, not `ceil(S/90) = 2`, and the last window's end is `7776000`, not
`to_epoch`, because `current_from` jumps to `current_to + 1 = to_date` and the
loop exits, leaving the final second uncovered. -/
theorem chunkPlanner_plan_counterexample :
    planChunks 0 7776001 = [(0, 7776000)] ∧
    (planChunks 0 7776001).length = 1 ∧
    ((planChunks 0 7776001).getLast?).map Prod.snd = some 7776000 ∧
    (7776000 : Int) < 7776001 ∧ (7776001 : Int) ≤ 2 * 7776000 := by
  refine ⟨?_, ?_, ?_, by norm_num, by norm_num⟩ <;> decide

/-! ## FetchClient

Embedding of `_fetch_data_with_retry` (`scraper.py` lines 130-157):

    for attempt in range(max_retries):
        try:
            ...
            response = requests.get(url, headers=headers)
            if response.status_code == 200:
                return response.text
            logger.error(f"Failed to fetch data: Status {response.status_code}")
        except Exception as e:
            if attempt == max_retries - 1:
                raise
            time.sleep(2  attempt)
    return None

The network is modelled as an oracle mapping the attempt index to its outcome:
a 200 response with a body, a non-200 status, or a transport exception raised
inside the `try`.  The embedding returns the function's outcome (a returned
value or a propagated exception), the total seconds slept, and the number of
attempts performed.  Note the code sleeps only in the `except` branch: a
non-200 status falls through to the next loop iteration without sleeping, and
if the final attempt fails with a non-200 status the loop ends and the
function returns `None` instead of raising. -/

inductive AttemptOutcome where
  | success (body : String)
  | badStatus (code : Nat)
  | netError
deriving DecidableEq, Repr

inductive FetchResult where
  | returned (v : Option String)
  | raised
deriving DecidableEq, Repr

def runAttempts (oracle : Nat → AttemptOutcome) : Nat → Nat → FetchResult × Nat × Nat
  | _, 0 => (.returned none, 0, 0)
  | attempt, fuel + 1 =>
    match oracle attempt with
    | .success body => (.returned (some body), 0, 1)
    | .badStatus _ =>
      let r := runAttempts oracle (attempt + 1) fuel
      (r.1, r.2.1, r.2.2 + 1)
    | .netError =>
      if fuel = 0 then (.raised, 0, 1)
      else
        let r := runAttempts oracle (attempt + 1) fuel
        (r.1, r.2.1 + 2 ^ attempt, r.2.2 + 1)

def fetchDataWithRetry (oracle : Nat → AttemptOutcome) (maxRetries : Nat) :
    FetchResult × Nat × Nat :=
  runAttempts oracle 0 maxRetries

theorem runAttempts_used_le (oracle : Nat → AttemptOutcome) (fuel : Nat) :
    ∀ attempt : Nat, (runAttempts oracle attempt fuel).2.2 ≤ fuel := by
  induction fuel with
  | zero => intro attempt; simp [runAttempts]
  | succ n ih =>
    intro attempt
    unfold runAttempts
    rcases h : oracle attempt with body | code | _
    · simp
    · simpa using Nat.succ_le_succ (ih (attempt + 1))
    · by_cases h0 : n = 0
      · simp [h0]
      · rw [if_neg h0]
        simpa using Nat.succ_le_succ (ih (attempt + 1))

/-- C2 (amended).  The client makes at most 3 attempts and retries on both
transport failure and non-success HTTP status, but the exponential backoff
`2^i` happens only after a (non-final) attempt that raised a transport
exception; a non-success status retries immediately with no wait.  A fetch
whose first two attempts raise transport errors and whose third returns 200
yields the body having slept `1 + 2 = 3` seconds; a fetch whose three attempts
all raise transport errors propagates the last exception to the caller; a
fetch whose three attempts all return non-success statuses sleeps 0 seconds
and returns `None` without raising any error. -/
theorem fetchRetry_spec :
    (∀ oracle : Nat → AttemptOutcome, (fetchDataWithRetry oracle 3).2.2 ≤ 3) ∧
    (∀ (oracle : Nat → AttemptOutcome) (body : String),
      oracle 0 = .netError → oracle 1 = .netError → oracle 2 = .success body →
      fetchDataWithRetry oracle 3 = (.returned (some body), 3, 3)) ∧
    (∀ oracle : Nat → AttemptOutcome,
      oracle 0 = .netError → oracle 1 = .netError → oracle 2 = .netError →
      fetchDataWithRetry oracle 3 = (.raised, 3, 3)) ∧
    (∀ (oracle : Nat → AttemptOutcome) (c0 c1 c2 : Nat),
      oracle 0 = .badStatus c0 → oracle 1 = .badStatus c1 → oracle 2 = .badStatus c2 →
      fetchDataWithRetry oracle 3 = (.returned none, 0, 3)) := by
  refine ⟨fun oracle => runAttempts_used_le oracle 3 0, ?_, ?_, ?_⟩
  · intro oracle body h0 h1 h2
    simp [fetchDataWithRetry, runAttempts, h0, h1, h2]
  · intro oracle h0 h1 h2
    simp [fetchDataWithRetry, runAttempts, h0, h1, h2]
  · intro oracle c0 c1 c2 h0 h1 h2
    simp [fetchDataWithRetry, runAttempts, h0, h1, h2]

/-- Witness for C2: the amended retry specification instantiated on
concrete outcome sequences. -/
theorem fetchRetry_spec_witness :
    fetchDataWithRetry (fun n => if n < 2 then .netError else .success "ok") 3 =
      (.returned (some "ok"), 3, 3) ∧
    fetchDataWithRetry (fun _ => .netError) 3 = (.raised, 3, 3) ∧
    fetchDataWithRetry (fun _ => .badStatus 500) 3 = (.returned none, 0, 3) :=
  ⟨fetchRetry_spec.2.1 _ "ok" rfl rfl rfl,
   fetchRetry_spec.2.2.1 _ rfl rfl rfl,
   fetchRetry_spec.2.2.2 _ 500 500 500 rfl rfl rfl⟩

/-- C2 counterexample.  When every attempt fails with a non-success HTTP
status (here 500), the code performs its three attempts with zero seconds
of backoff (the `time.sleep` sits only in the `except` branch) and then
returns `None` instead of surfacing an error; likewise a fetch failing twice
with non-success statuses and succeeding on the third attempt has waited 0
seconds, not at least 3. -/
theorem fetchRetry_counterexample :
    fetchDataWithRetry (fun _ => .badStatus 500) 3 = (.returned none, 0, 3) ∧
    fetchDataWithRetry (fun n => if n < 2 then .badStatus 500 else .success "ok") 3 =
      (.returned (some "ok"), 0, 3) := by
  constructor <;> rfl

/-! ## PersistenceStore

Embedding of the `exchange_rates` table (`models/exchange_rate.py`) and of
`save_to_database` (`scraper.py` lines 218-243).  A stored row carries the
record fields plus `created_at` (column default `datetime.utcnow`, set only at
insert; the autoincrement `id` is never referenced by the code and is
omitted).  The table has a unique index on `(currency_pair, date)`; `save`
executes, per record, the SQLite upsert

    stmt = insert(ExchangeRate).values(rate_data)
    stmt = stmt.on_conflict_do_update(
        index_elements=['currency_pair', 'date'], set_=rate_data)

which inserts a fresh row when the key is absent and otherwise overwrites
exactly the fields of `rate_data` (which do not include `created_at`).  Rate
fields carry the exact decimal passed to `float(...)` (their values are
irrelevant to the store claims), timestamps are `Nat`. -/

/-- The exact decimal value accepted by `float(...)`: `num * 10 ^ exp`.
No claim depends on IEEE rounding, so the parsed decimal is kept exactly. -/
structure PyFloat where
  num : Int
  exp : Int
deriving DecidableEq, Repr

structure RateRecord where
  currency_pair : String
  date : String
  open_rate : PyFloat
  high_rate : PyFloat
  low_rate : PyFloat
  close_rate : PyFloat
  adj_close : PyFloat
  volume : Int
deriving DecidableEq, Repr

structure StoredRow where
  currency_pair : String
  date : String
  open_rate : PyFloat
  high_rate : PyFloat
  low_rate : PyFloat
  close_rate : PyFloat
  adj_close : PyFloat
  volume : Int
  created_at : Nat
deriving DecidableEq, Repr

def recKey (r : RateRecord) : String × String := (r.currency_pair, r.date)

def rowKey (s : StoredRow) : String × String := (s.currency_pair, s.date)

/-- Model of the `UPDATE SET`-part of the upsert: overwrite every field of `rate_data`
(all record fields, key included), keep `created_at`. -/
def applyRecord (r : RateRecord) (s : StoredRow) : StoredRow :=
  { currency_pair := r.currency_pair, date := r.date, open_rate := r.open_rate,
    high_rate := r.high_rate, low_rate := r.low_rate, close_rate := r.close_rate,
    adj_close := r.adj_close, volume := r.volume, created_at := s.created_at }

/-- Fresh insert: the column default stamps `created_at` with the insert
time. -/
def newRow (now : Nat) (r : RateRecord) : StoredRow :=
  { currency_pair := r.currency_pair, date := r.date, open_rate := r.open_rate,
    high_rate := r.high_rate, low_rate := r.low_rate, close_rate := r.close_rate,
    adj_close := r.adj_close, volume := r.volume, created_at := now }

def containsKey (k : String × String) (st : List StoredRow) : Bool :=
  st.any (fun s => rowKey s = k)

def updIf (r : RateRecord) (s : StoredRow) : StoredRow :=
  if rowKey s = recKey r then applyRecord r s else s

/-- One `INSERT ... ON CONFLICT DO UPDATE` against the table. -/
def upsert (now : Nat) (st : List StoredRow) (r : RateRecord) : List StoredRow :=
  if containsKey (recKey r) st then st.map (updIf r) else st ++ [newRow now r]

/-- The effect of the statement loop of `save_to_database` once committed. -/
def applyBatch (now : Nat) (rs : List RateRecord) (st : List StoredRow) :
    List StoredRow :=
  rs.foldl (upsert now) st

theorem rowKey_applyRecord (r : RateRecord) (s : StoredRow) :
    rowKey (applyRecord r s) = recKey r := rfl

theorem rowKey_newRow (now : Nat) (r : RateRecord) :
    rowKey (newRow now r) = recKey r := rfl

theorem applyRecord_applyRecord (r r' : RateRecord) (s : StoredRow) :
    applyRecord r (applyRecord r' s) = applyRecord r s := rfl

theorem applyRecord_newRow (now : Nat) (r r' : RateRecord) :
    applyRecord r (newRow now r') = newRow now r := rfl

theorem rowKey_updIf (r : RateRecord) (s : StoredRow) :
    rowKey (updIf r s) = rowKey s := by
  unfold updIf
  split
  · rename_i h
    rw [rowKey_applyRecord, h]
  · rfl

theorem updIf_of_ne (r : RateRecord) (s : StoredRow) (h : rowKey s ≠ recKey r) :
    updIf r s = s := by
  unfold updIf
  rw [if_neg h]

theorem containsKey_map_updIf (k : String × String) (r : RateRecord)
    (st : List StoredRow) : containsKey k (st.map (updIf r)) = containsKey k st := by
  induction st with
  | nil => rfl
  | cons s rest ih =>
    simp only [containsKey, List.map_cons, List.any_cons] at ih ⊢
    rw [rowKey_updIf, ih]

theorem containsKey_upsert_self (now : Nat) (st : List StoredRow) (r : RateRecord) :
    containsKey (recKey r) (upsert now st r) = true := by
  unfold upsert
  split
  · rename_i h
    rw [containsKey_map_updIf]
    exact h
  · unfold containsKey
    rw [List.any_append]
    simp [rowKey_newRow]

theorem containsKey_upsert_mono (now : Nat) (k : String × String)
    (st : List StoredRow) (r : RateRecord) (h : containsKey k st = true) :
    containsKey k (upsert now st r) = true := by
  unfold upsert
  split
  · rw [containsKey_map_updIf]
    exact h
  · unfold containsKey at h ⊢
    rw [List.any_append, h]
    rfl

theorem containsKey_applyBatch_mono (now : Nat) (k : String × String)
    (rs : List RateRecord) : ∀ st : List StoredRow, containsKey k st = true →
    containsKey k (applyBatch now rs st) = true := by
  induction rs with
  | nil => intro st h; exact h
  | cons r rest ih =>
    intro st h
    exact ih _ (containsKey_upsert_mono now k st r h)

theorem containsKey_applyBatch_of_mem (now : Nat) (rs : List RateRecord) :
    ∀ st : List StoredRow, ∀ r ∈ rs,
    containsKey (recKey r) (applyBatch now rs st) = true := by
  induction rs with
  | nil => intro st r hr; simp at hr
  | cons r0 rest ih =>
    intro st r hr
    rcases List.mem_cons.mp hr with h | h
    · subst h
      exact containsKey_applyBatch_mono now _ rest _
        (containsKey_upsert_self now st r)
    · exact ih _ r h

theorem upsert_of_contains (now : Nat) (st : List StoredRow) (r : RateRecord)
    (h : containsKey (recKey r) st = true) : upsert now st r = st.map (updIf r) := by
  unfold upsert
  rw [if_pos h]

theorem map_id_of_mem {α : Type} (l : List α) (f : α → α)
    (h : ∀ a ∈ l, f a = a) : l.map f = l := by
  induction l with
  | nil => rfl
  | cons a rest ih =>
    rw [List.map_cons, h a (List.mem_cons_self a rest),
      ih (fun b hb => h b (List.mem_cons_of_mem a hb))]

theorem applyBatch_eq_map (now : Nat) (rs : List RateRecord) :
    ∀ st : List StoredRow, (∀ r ∈ rs, containsKey (recKey r) st = true) →
    applyBatch now rs st = st.map (fun s => rs.foldl (fun s r => updIf r s) s) := by
  induction rs with
  | nil =>
    intro st _
    simp [applyBatch]
  | cons r rest ih =>
    intro st h
    show applyBatch now rest (upsert now st r) = _
    rw [upsert_of_contains now st r (h r (List.mem_cons_self r rest))]
    rw [ih (st.map (updIf r)) (fun r' hr' => by
      rw [containsKey_map_updIf]
      exact h r' (List.mem_cons_of_mem r hr'))]
    rw [List.map_map]
    rfl

/-- The last record of a batch whose key is `k` (conflict resolution is
last-write-wins within a batch: later statements overwrite earlier ones). -/
def lastMatch (k : String × String) : List RateRecord → Option RateRecord
  | [] => none
  | r :: rs =>
    match lastMatch k rs with
    | some r' => some r'
    | none => if recKey r = k then some r else none

theorem lastMatch_append_single (k : String × String) (r : RateRecord) :
    ∀ l : List RateRecord,
    lastMatch k (l ++ [r]) = if recKey r = k then some r else lastMatch k l := by
  intro l
  induction l with
  | nil =>
    by_cases h : recKey r = k
    · simp [lastMatch, h]
    · simp [lastMatch, h]
  | cons x rest ih =>
    show (match lastMatch k (rest ++ [r]) with
      | some r' => some r'
      | none => if recKey x = k then some x else none) = _
    rw [ih]
    by_cases h : recKey r = k
    · rw [if_pos h, if_pos h]
    · rw [if_neg h, if_neg h]
      rfl

theorem foldl_updIf_of_lastMatch_none :
    ∀ (rs : List RateRecord) (s : StoredRow), lastMatch (rowKey s) rs = none →
    rs.foldl (fun s r => updIf r s) s = s := by
  intro rs
  induction rs with
  | nil => intro s _; rfl
  | cons r rest ih =>
    intro s h
    have hrest : lastMatch (rowKey s) rest = none := by
      unfold lastMatch at h
      rcases hl : lastMatch (rowKey s) rest with _ | r'
      · rfl
      · rw [hl] at h
        simp at h
    have hne : recKey r ≠ rowKey s := by
      intro hc
      unfold lastMatch at h
      rw [hrest, if_pos hc] at h
      simp at h
    rw [List.foldl_cons, updIf_of_ne r s (fun hc => hne hc.symm)]
    exact ih s hrest

theorem foldl_updIf_of_lastMatch_some :
    ∀ (rs : List RateRecord) (s : StoredRow) (r0 : RateRecord),
    lastMatch (rowKey s) rs = some r0 →
    rs.foldl (fun s r => updIf r s) s = applyRecord r0 s := by
  intro rs
  induction rs with
  | nil => intro s r0 h; simp [lastMatch] at h
  | cons r rest ih =>
    intro s r0 h
    rw [List.foldl_cons]
    by_cases hr : rowKey s = recKey r
    · have hupd : updIf r s = applyRecord r s := by
        unfold updIf
        rw [if_pos hr]
      have hkey : rowKey (applyRecord r s) = rowKey s := by
        rw [rowKey_applyRecord, hr]
      rcases hl : lastMatch (rowKey s) rest with _ | r''
      · have : r0 = r := by
          unfold lastMatch at h
          rw [hl, if_pos hr.symm] at h
          simpa using h.symm
        subst this
        rw [hupd, foldl_updIf_of_lastMatch_none rest (applyRecord r0 s)
          (by rw [hkey]; exact hl)]
      · have : r0 = r'' := by
          unfold lastMatch at h
          rw [hl] at h
          simpa using h.symm
        subst this
        rw [hupd, ih (applyRecord r s) r0 (by rw [hkey]; exact hl),
          applyRecord_applyRecord]
    · have hupd : updIf r s = s := updIf_of_ne r s hr
      rcases hl : lastMatch (rowKey s) rest with _ | r''
      · exfalso
        unfold lastMatch at h
        rw [hl, if_neg (fun hc => hr hc.symm)] at h
        simp at h
      · have : r0 = r'' := by
          unfold lastMatch at h
          rw [hl] at h
          simpa using h.symm
        subst this
        rw [hupd]
        exact ih s r0 hl

theorem not_containsKey_iff (k : String × String) (st : List StoredRow) :
    containsKey k st = false ↔ ∀ s ∈ st, rowKey s ≠ k := by
  simp [containsKey]

theorem applyRecord_of_mem_applyBatch (now : Nat) (rs : List RateRecord) :
    ∀ (st : List StoredRow) (s : StoredRow) (r0 : RateRecord),
    s ∈ applyBatch now rs st → lastMatch (rowKey s) rs = some r0 →
    applyRecord r0 s = s := by
  induction rs using List.reverseRecOn with
  | nil =>
    intro st s r0 _ h
    simp [lastMatch] at h
  | append_singleton l r ih =>
    intro st s r0 hmem hlast
    rw [lastMatch_append_single] at hlast
    have hbatch : applyBatch now (l ++ [r]) st = upsert now (applyBatch now l st) r := by
      unfold applyBatch
      rw [List.foldl_append]
      rfl
    rw [hbatch] at hmem
    unfold upsert at hmem
    by_cases hc : containsKey (recKey r) (applyBatch now l st) = true
    · rw [if_pos hc] at hmem
      obtain ⟨t, ht, hts⟩ := List.mem_map.mp hmem
      by_cases hkk : rowKey t = recKey r
      · have hs : s = applyRecord r t := by
          rw [← hts]
          unfold updIf
          rw [if_pos hkk]
        have hks : rowKey s = recKey r := by rw [hs, rowKey_applyRecord]
        rw [hks, if_pos rfl] at hlast
        have hr0 : r0 = r := by simpa using hlast.symm
        subst hr0
        rw [hs, applyRecord_applyRecord]
      · have hs : s = t := by
          rw [← hts, updIf_of_ne r t hkk]
        subst hs
        rw [if_neg (fun hc2 => hkk hc2.symm)] at hlast
        exact ih st s r0 ht hlast
    · rw [if_neg hc] at hmem
      rcases List.mem_append.mp hmem with hin | hin
      · have hne : rowKey s ≠ recKey r :=
          (not_containsKey_iff _ _).mp (by simpa using hc) s hin
        rw [if_neg (fun hc2 => hne hc2.symm)] at hlast
        exact ih st s r0 hin hlast
      · have hs : s = newRow now r := by simpa using hin
        subst hs
        rw [rowKey_newRow, if_pos rfl] at hlast
        have hr0 : r0 = r := by simpa using hlast.symm
        subst hr0
        rw [applyRecord_newRow]

theorem applyBatch_idem (now now' : Nat) (rs : List RateRecord) (st : List StoredRow) :
    applyBatch now' rs (applyBatch now rs st) = applyBatch now rs st := by
  have hkeys : ∀ r ∈ rs, containsKey (recKey r) (applyBatch now rs st) = true :=
    fun r hr => containsKey_applyBatch_of_mem now rs st r hr
  rw [applyBatch_eq_map now' rs (applyBatch now rs st) hkeys]
  apply map_id_of_mem
  intro s hs
  rcases hl : lastMatch (rowKey s) rs with _ | r0
  · exact foldl_updIf_of_lastMatch_none rs s hl
  · rw [foldl_updIf_of_lastMatch_some rs s r0 hl]
    exact applyRecord_of_mem_applyBatch now rs st s r0 hs hl

theorem applyBatch_lww (now1 now2 : Nat) (A B : RateRecord) (st : List StoredRow)
    (hk : recKey A = recKey B) (habs : containsKey (recKey B) st = false) :
    applyBatch now2 [B] (applyBatch now1 [A] st) = st ++ [newRow now1 B] := by
  have h1 : applyBatch now1 [A] st = st ++ [newRow now1 A] := by
    show upsert now1 st A = _
    unfold upsert
    rw [hk, if_neg (by rw [habs]; simp)]
  rw [h1]
  show upsert now2 (st ++ [newRow now1 A]) B = _
  have h2 : containsKey (recKey B) (st ++ [newRow now1 A]) = true := by
    unfold containsKey
    rw [List.any_append]
    simp [rowKey_newRow, hk]
  unfold upsert
  rw [if_pos h2, List.map_append]
  congr 1
  · apply map_id_of_mem
    intro s hs
    exact updIf_of_ne B s ((not_containsKey_iff _ _).mp habs s hs)
  · show [updIf B (newRow now1 A)] = [newRow now1 B]
    have : updIf B (newRow now1 A) = applyRecord B (newRow now1 A) := by
      unfold updIf
      rw [if_pos (by rw [rowKey_newRow, hk])]
    rw [this, applyRecord_newRow]

/-- C3 (confirmed).  `save` is idempotent and last-write-wins on the key
`(currency_pair, date)`: applying the same record batch twice (at any two
timestamps) leaves the table exactly as applying it once — no duplicate rows,
same field values, `created_at` untouched; and saving record `A` then record
`B` for the same key into a store not containing that key leaves the store
extended by a single row carrying all of `B`'s fields while `created_at`
keeps the value `now1` stamped at the first insert (it is not mutated by the
second, updating, save). -/
theorem save_idempotent_lww :
    (∀ (now now' : Nat) (rs : List RateRecord) (st : List StoredRow),
      applyBatch now' rs (applyBatch now rs st) = applyBatch now rs st) ∧
    (∀ (now1 now2 : Nat) (A B : RateRecord) (st : List StoredRow),
      recKey A = recKey B → containsKey (recKey B) st = false →
      applyBatch now2 [B] (applyBatch now1 [A] st) = st ++ [newRow now1 B] ∧
      (newRow now1 B).created_at = now1) :=
  ⟨applyBatch_idem,
   fun now1 now2 A B st hk habs => ⟨applyBatch_lww now1 now2 A B st hk habs, rfl⟩⟩

def sampleA : RateRecord :=
  { currency_pair := "GBPINR=X", date := "2024-01-05", open_rate := ⟨1, 0⟩,
    high_rate := ⟨2, 0⟩, low_rate := ⟨5, -1⟩, close_rate := ⟨4, 0⟩,
    adj_close := ⟨5, 0⟩, volume := 10 }

def sampleB : RateRecord :=
  { currency_pair := "GBPINR=X", date := "2024-01-05", open_rate := ⟨6, 0⟩,
    high_rate := ⟨7, 0⟩, low_rate := ⟨15, -1⟩, close_rate := ⟨9, 0⟩,
    adj_close := ⟨11, 0⟩, volume := 0 }

/-- Witness for C3: idempotence and last-write-wins instantiated on
concrete records `A ≠ B` sharing the key `("GBPINR=X", "2024-01-05")` over the
empty store. -/
theorem save_idempotent_lww_witness :
    applyBatch 8 [sampleA, sampleB] (applyBatch 7 [sampleA, sampleB] []) =
      applyBatch 7 [sampleA, sampleB] [] ∧
    (applyBatch 9 [sampleB] (applyBatch 7 [sampleA] []) = [newRow 7 sampleB] ∧
      (newRow 7 sampleB).created_at = 7) :=
  ⟨save_idempotent_lww.1 7 8 [sampleA, sampleB] [],
   by simpa using save_idempotent_lww.2 7 9 sampleA sampleB [] rfl rfl⟩

/-! The transactional shell of `save_to_database`:

    if not exchange_rates:
        return
    session = self.Session()
    try:
        for rate_data in exchange_rates: session.execute(stmt)
        session.commit()
    except SQLAlchemyError as e:
        session.rollback()
        raise
    finally:
        session.close()

Statements are buffered in the session and take effect only at `commit`;
`rollback` restores the pre-call table.  A possible `SQLAlchemyError` is
modelled by `failAt`: `some i` with `i < rs.length` means the `i`-th
`execute` raises, `some rs.length` means `commit` raises; the error is
re-raised to the caller (`SaveResult.err`), never swallowed. -/

inductive SaveResult where
  | ok (store : List StoredRow)
  | err (store : List StoredRow)
deriving DecidableEq, Repr

def runStatements (failAt : Option Nat) (now : Nat) :
    List RateRecord → Nat → List StoredRow → Except Unit (List StoredRow)
  | [], _, pending => .ok pending
  | r :: rs, i, pending =>
    if failAt = some i then .error ()
    else runStatements failAt now rs (i + 1) (upsert now pending r)

def save_to_database (failAt : Option Nat) (now : Nat) (rs : List RateRecord)
    (st : List StoredRow) : SaveResult :=
  if rs.isEmpty then .ok st
  else
    match runStatements failAt now rs 0 st with
    | .error _ => .err st
    | .ok pending => if failAt = some rs.length then .err st else .ok pending

theorem runStatements_ok_or_error (failAt : Option Nat) (now : Nat)
    (rs : List RateRecord) : ∀ (i : Nat) (st : List StoredRow),
    runStatements failAt now rs i st = .ok (applyBatch now rs st) ∨
    runStatements failAt now rs i st = .error () := by
  induction rs with
  | nil => intro i st; left; rfl
  | cons r rest ih =>
    intro i st
    unfold runStatements
    by_cases h : failAt = some i
    · right
      rw [if_pos h]
    · rw [if_neg h]
      exact ih (i + 1) (upsert now st r)

/-- C4 (confirmed).  `save` applies the whole batch within one atomic
transaction: whatever statement or commit fails (any value of `failAt`), the
call either returns the store with every record of the batch applied, or
raises leaving the store untouched — never a partial application, and the
failure is surfaced to the caller rather than swallowed.  For the empty
batch, `save([])` returns early: success, store unchanged, zero records
affected. -/
theorem save_atomic :
    (∀ (failAt : Option Nat) (now : Nat) (st : List StoredRow),
      save_to_database failAt now [] st = .ok st) ∧
    (∀ (failAt : Option Nat) (now : Nat) (rs : List RateRecord) (st : List StoredRow),
      save_to_database failAt now rs st = .ok (applyBatch now rs st) ∨
      save_to_database failAt now rs st = .err st) := by
  constructor
  · intro failAt now st
    rfl
  · intro failAt now rs st
    unfold save_to_database
    by_cases hemp : rs.isEmpty
    · left
      rw [if_pos hemp]
      have : rs = [] := List.isEmpty_iff.mp hemp
      subst this
      rfl
    · rw [if_neg hemp]
      rcases runStatements_ok_or_error failAt now rs 0 st with h | h
      · rw [h]
        by_cases hfail : failAt = some rs.length
        · right
          simp [hfail]
        · left
          simp [hfail]
      · right
        rw [h]

/-! ## ParseEngine

Embedding of `parse_exchange_data` (`scraper.py` lines 159-216).  The
BeautifulSoup step `soup.find_all('tr', class_='yf-j5d1ld')` followed by
`row.find_all('td')` extracts a list of rows, each a list of cell texts; the
content is embedded at that boundary as `List (List String)` (an empty or
unmatching markup yields the empty row list, and `if not html_content` also
returns `None`, so those two early exits coincide in the model).

Numeric cells go through `float(text.replace(',', ''))` and
`int(text.replace(',', ''))`; `float`/`int` of `str` are modelled on their
accepted grammar (optional surrounding whitespace, optional sign, decimal
digits, for `float` an optional dot and an optional exponent), returning
`none` exactly when CPython raises `ValueError`.  Dates go through
`datetime.strptime(s, '%b %d, %Y')` — case-insensitive month abbreviation,
1-2 digit day validated against the real calendar, exactly 4 year digits,
year ≥ 1 — then `.strftime('%Y-%m-%d')`, which zero-pads month and day to two
digits but renders the year unpadded (CPython on Linux prints year 50 as
"50"). -/

/-- Python `str.strip()`-style whitespace (ASCII whitespace suffices here). -/
def isSpaceChar (c : Char) : Bool := c.toNat == 32 || (9 ≤ c.toNat && c.toNat ≤ 13)

def pyStripL (cs : List Char) : List Char :=
  ((cs.dropWhile isSpaceChar).reverse.dropWhile isSpaceChar).reverse

/-- Python `str.strip()`. -/
def pyStrip (s : String) : String := String.mk (pyStripL s.data)

def lowerChar (c : Char) : Char :=
  if 65 ≤ c.toNat ∧ c.toNat ≤ 90 then Char.ofNat (c.toNat + 32) else c

/-- Python `str.lower()` (ASCII range). -/
def pyLower (s : String) : String := String.mk (s.data.map lowerChar)

def splitSpaces : List Char → List (List Char)
  | [] => [[]]
  | c :: cs =>
    if c = ' ' then [] :: splitSpaces cs
    else
      match splitSpaces cs with
      | [] => [c] :: []
      | t :: ts => (c :: t) :: ts

/-- Split on single spaces, keeping empty tokens (`"a b".split(' ')`). -/
def splitOnSpace (s : String) : List String := (splitSpaces s.data).map String.mk

def lastIsComma (s : String) : Bool :=
  match s.data.getLast? with
  | some c => c == ','
  | none => false

def dropLastChar (s : String) : String := String.mk s.data.dropLast

def isDigitChar (c : Char) : Bool := 48 ≤ c.toNat && c.toNat ≤ 57

def digitsToNat (cs : List Char) : Nat := cs.foldl (fun n c => 10 * n + (c.toNat - 48)) 0

def stripCommas (s : String) : String := String.mk (s.data.filter (fun c => c != ','))

def parseSign : List Char → Int × List Char
  | '-' :: r => (-1, r)
  | '+' :: r => (1, r)
  | r => (1, r)

def pyInt? (s : String) : Option Int :=
  let p := parseSign (pyStripL s.data)
  if p.2 ≠ [] ∧ p.2.all isDigitChar then some (p.1 * digitsToNat p.2) else none

def parseExpPart (cs : List Char) : Option Int :=
  let p := parseSign cs
  if p.2 ≠ [] ∧ p.2.all isDigitChar then some (p.1 * digitsToNat p.2) else none

def parseMantissa (cs : List Char) : Option (List Char × List Char) :=
  let intPart := cs.takeWhile (fun c => c != '.')
  match cs.dropWhile (fun c => c != '.') with
  | [] =>
    if intPart ≠ [] ∧ intPart.all isDigitChar then some (intPart, []) else none
  | _ :: frac =>
    if frac.all (fun c => c != '.') ∧ intPart.all isDigitChar ∧ frac.all isDigitChar ∧
        (intPart ≠ [] ∨ frac ≠ []) then
      some (intPart, frac)
    else none

def pyFloat? (s : String) : Option PyFloat :=
  let p := parseSign (pyStripL s.data)
  match parseMantissa (p.2.takeWhile (fun c => c != 'e' && c != 'E')) with
  | none => none
  | some mant =>
    match p.2.dropWhile (fun c => c != 'e' && c != 'E') with
    | [] => some { num := p.1 * digitsToNat (mant.1 ++ mant.2),
                   exp := -(mant.2.length : Int) }
    | _ :: expPart =>
      match parseExpPart expPart with
      | none => none
      | some e => some { num := p.1 * digitsToNat (mant.1 ++ mant.2),
                         exp := e - mant.2.length }

def monthNum? (s : String) : Option Nat :=
  if s = "jan" then some 1 else if s = "feb" then some 2 else if s = "mar" then some 3
  else if s = "apr" then some 4 else if s = "may" then some 5 else if s = "jun" then some 6
  else if s = "jul" then some 7 else if s = "aug" then some 8 else if s = "sep" then some 9
  else if s = "oct" then some 10 else if s = "nov" then some 11 else if s = "dec" then some 12
  else none

def isLeap (y : Nat) : Bool := (y % 4 == 0 && y % 100 != 0) || y % 400 == 0

def daysInMonth (y m : Nat) : Nat :=
  if m = 2 then (if isLeap y then 29 else 28)
  else if m = 4 ∨ m = 6 ∨ m = 9 ∨ m = 11 then 30
  else 31

/-- Model of `datetime.strptime(s, '%b %d, %Y')`, returning the (year, month, day)
triple of the resulting `datetime`, or `none` where CPython raises
`ValueError`. -/
def parseDate (s : String) : Option (Nat × Nat × Nat) :=
  match splitOnSpace s with
  | [monTok, dayTok, yearTok] =>
    match monthNum? (pyLower monTok) with
    | none => none
    | some m =>
      if lastIsComma dayTok then
        if 1 ≤ (dropLastChar dayTok).length ∧ (dropLastChar dayTok).length ≤ 2 ∧
            (dropLastChar dayTok).data.all isDigitChar then
          if yearTok.length = 4 ∧ yearTok.data.all isDigitChar then
            if 1 ≤ digitsToNat yearTok.data ∧ 1 ≤ digitsToNat (dropLastChar dayTok).data ∧
                digitsToNat (dropLastChar dayTok).data ≤
                  daysInMonth (digitsToNat yearTok.data) m then
              some (digitsToNat yearTok.data, m, digitsToNat (dropLastChar dayTok).data)
            else none
          else none
        else none
      else none
  | _ => none

def digitChar (n : Nat) : Char := Nat.digitChar (n % 10)

def pad2Chars (n : Nat) : List Char := [digitChar (n / 10), digitChar n]

def yearChars (y : Nat) : List Char :=
  if y < 10 then [digitChar y]
  else if y < 100 then [digitChar (y / 10), digitChar y]
  else if y < 1000 then [digitChar (y / 100), digitChar (y / 10), digitChar y]
  else [digitChar (y / 1000), digitChar (y / 100), digitChar (y / 10), digitChar y]

/-- Rendering of `.strftime('%Y-%m-%d')` for years up to 9999 (the only years `parseDate`
produces): month and day zero-padded to two digits, year unpadded. -/
def formatDate (y m d : Nat) : String :=
  String.mk (yearChars y ++ '-' :: pad2Chars m ++ '-' :: pad2Chars d)

def isYYYYMMDD (s : String) : Bool :=
  match s.data with
  | [a, b, c, d, h1, e, f, h2, g, k] =>
    isDigitChar a && isDigitChar b && isDigitChar c && isDigitChar d && h1 == '-' &&
    isDigitChar e && isDigitChar f && h2 == '-' && isDigitChar g && isDigitChar k
  | _ => false

def PLACEHOLDERS : List String := ["-", "", "null", "None"]

/-- One iteration of the row loop of `parse_exchange_data`: `none` is a
skipped row (any `continue`, and any caught `ValueError`/`IndexError`). -/
def parseRow (currencyPair : String) (cols : List String) : Option RateRecord :=
  if cols.length < 7 then none
  else
    if pyStrip (cols.getD 0 "") = "" then none
    else
      match parseDate (pyStrip (cols.getD 0 "")) with
      | none => none
      | some (y, m, d) =>
        if ((cols.drop 1).take 5).any (fun c => PLACEHOLDERS.contains (pyStrip c)) then none
        else
          match pyFloat? (stripCommas (cols.getD 1 "")),
              pyFloat? (stripCommas (cols.getD 2 "")),
              pyFloat? (stripCommas (cols.getD 3 "")),
              pyFloat? (stripCommas (cols.getD 4 "")),
              pyFloat? (stripCommas (cols.getD 5 "")),
              (if pyStrip (cols.getD 6 "") = "-" then some 0
               else pyInt? (stripCommas (cols.getD 6 ""))) with
          | some o, some hi, some lo, some cl, some adj, some v =>
            some { currency_pair := currencyPair, date := formatDate y m d,
                   open_rate := o, high_rate := hi, low_rate := lo,
                   close_rate := cl, adj_close := adj, volume := v }
          | _, _, _, _, _, _ => none

def parse_exchange_data (rows : List (List String)) (currencyPair : String) :
    Option (List RateRecord) :=
  if rows.isEmpty then none
  else if (rows.filterMap (parseRow currencyPair)).isEmpty then none
  else some (rows.filterMap (parseRow currencyPair))

theorem digitsToNat_aux_lt (cs : List Char) : ∀ acc : Nat,
    (∀ c ∈ cs, isDigitChar c = true) →
    cs.foldl (fun n c => 10 * n + (c.toNat - 48)) acc < (acc + 1) * 10 ^ cs.length := by
  induction cs with
  | nil => intro acc _; simp
  | cons c cs ih =>
    intro acc h
    rw [List.foldl_cons]
    have hd : c.toNat - 48 ≤ 9 := by
      have hc := h c (List.mem_cons_self c cs)
      unfold isDigitChar at hc
      simp at hc
      omega
    have h1 := ih (10 * acc + (c.toNat - 48)) (fun x hx => h x (List.mem_cons_of_mem c hx))
    have h2 : (10 * acc + (c.toNat - 48) + 1) * 10 ^ cs.length ≤
        (acc + 1) * 10 ^ (c :: cs).length := by
      rw [List.length_cons, pow_succ]
      have h3 : 10 * acc + (c.toNat - 48) + 1 ≤ (acc + 1) * 10 := by omega
      calc (10 * acc + (c.toNat - 48) + 1) * 10 ^ cs.length
          ≤ ((acc + 1) * 10) * 10 ^ cs.length := Nat.mul_le_mul_right _ h3
        _ = (acc + 1) * (10 ^ cs.length * 10) := by ring
    exact lt_of_lt_of_le h1 h2

theorem digitsToNat_lt (cs : List Char) (h : ∀ c ∈ cs, isDigitChar c = true) :
    digitsToNat cs < 10 ^ cs.length := by
  have := digitsToNat_aux_lt cs 0 h
  simpa [digitsToNat] using this

set_option maxHeartbeats 1000000 in
theorem monthNum?_bounds (s : String) (m : Nat) (h : monthNum? s = some m) :
    1 ≤ m ∧ m ≤ 12 := by
  unfold monthNum? at h
  split_ifs at h <;>
    first
      | exact Option.noConfusion h
      | (injection h with h; omega)

theorem daysInMonth_le (y m : Nat) : daysInMonth y m ≤ 31 := by
  unfold daysInMonth
  split_ifs <;> omega

theorem parseDate_bounds (s : String) (y m d : Nat)
    (h : parseDate s = some (y, m, d)) :
    1 ≤ y ∧ y ≤ 9999 ∧ 1 ≤ m ∧ m ≤ 12 ∧ 1 ≤ d ∧ d ≤ 31 := by
  unfold parseDate at h
  split at h
  · rename_i monTok dayTok yearTok hsplit
    split at h
    · exact Option.noConfusion h
    · rename_i m' hmon
      split at h
      · rename_i hcomma
        split at h
        · rename_i hday
          split at h
          · rename_i hyear
            split at h
            · rename_i hrange
              simp only [Option.some.injEq, Prod.mk.injEq] at h
              obtain ⟨hy, hm, hd⟩ := h
              subst hy
              subst hm
              subst hd
              have hylt : digitsToNat yearTok.data < 10 ^ 4 := by
                have hlen : yearTok.data.length = 4 := hyear.1
                have hb := digitsToNat_lt yearTok.data
                  (fun c hc => List.all_eq_true.mp hyear.2 c hc)
                rw [hlen] at hb
                exact hb
              have hmb := monthNum?_bounds _ m' hmon
              have hdm := daysInMonth_le (digitsToNat yearTok.data) m'
              exact ⟨hrange.1, by omega, hmb.1, hmb.2, hrange.2.1, by omega⟩
            · exact Option.noConfusion h
          · exact Option.noConfusion h
        · exact Option.noConfusion h
      · exact Option.noConfusion h
  · exact Option.noConfusion h

theorem parseRow_some_inv (pair : String) (cols : List String) (r : RateRecord)
    (h : parseRow pair cols = some r) :
    ∃ y m d o hi lo cl adj v,
      parseDate (pyStrip (cols.getD 0 "")) = some (y, m, d) ∧
      ((cols.drop 1).take 5).any (fun c => PLACEHOLDERS.contains (pyStrip c)) = false ∧
      pyFloat? (stripCommas (cols.getD 1 "")) = some o ∧
      pyFloat? (stripCommas (cols.getD 2 "")) = some hi ∧
      pyFloat? (stripCommas (cols.getD 3 "")) = some lo ∧
      pyFloat? (stripCommas (cols.getD 4 "")) = some cl ∧
      pyFloat? (stripCommas (cols.getD 5 "")) = some adj ∧
      (if pyStrip (cols.getD 6 "") = "-" then some 0
        else pyInt? (stripCommas (cols.getD 6 ""))) = some v ∧
      r = { currency_pair := pair, date := formatDate y m d, open_rate := o,
            high_rate := hi, low_rate := lo, close_rate := cl, adj_close := adj,
            volume := v } := by
  unfold parseRow at h
  split at h
  · exact Option.noConfusion h
  · split at h
    · exact Option.noConfusion h
    · split at h
      · exact Option.noConfusion h
      · rename_i y m d hdate
        split at h
        · exact Option.noConfusion h
        · rename_i hplace
          split at h
          · rename_i o hi lo cl adj v h1 h2 h3 h4 h5 h6
            refine ⟨y, m, d, o, hi, lo, cl, adj, v, hdate, ?_, h1, h2, h3, h4, h5, h6, ?_⟩
            · simpa using hplace
            · exact ((Option.some.injEq _ _).mp h).symm
          · exact Option.noConfusion h

theorem isDigitChar_digitChar (n : Nat) : isDigitChar (digitChar n) = true := by
  unfold digitChar
  have h : n % 10 < 10 := Nat.mod_lt _ (by norm_num)
  generalize hg : n % 10 = k at h ⊢
  interval_cases k <;> rfl

theorem isYYYYMMDD_formatDate (y m d : Nat) (hy1 : 1000 ≤ y) (hy2 : y ≤ 9999) :
    isYYYYMMDD (formatDate y m d) = true := by
  unfold formatDate yearChars
  rw [if_neg (by omega), if_neg (by omega), if_neg (by omega)]
  show isYYYYMMDD (String.mk [digitChar (y / 1000), digitChar (y / 100), digitChar (y / 10),
    digitChar y, '-', digitChar (m / 10), digitChar m, '-', digitChar (d / 10),
    digitChar d]) = true
  unfold isYYYYMMDD
  simp [isDigitChar_digitChar]

/-- C10 (amended).  `parse_exchange_data` never returns an empty list: its
result is either `none` or a non-empty list in which every record has
`currency_pair` equal to the pair argument, an integer `volume` (the field has
type `Int` by construction), and a date string `formatDate y m d` for a valid
calendar triple — which is zero-padded `YYYY-MM-DD` whenever `y ≥ 1000`, but
is rendered with an unpadded year (e.g. `"50-01-05"`) for the 4-digit source
years `0001`-`0999`, since CPython's `strftime('%Y')` does not pad small
years on Linux.  Callers can test success by the truthiness of the result. -/
theorem parse_result_shape :
    ∀ (rows : List (List String)) (pair : String) (l : List RateRecord),
    parse_exchange_data rows pair = some l →
    l ≠ [] ∧ ∀ r ∈ l, r.currency_pair = pair ∧
      ∃ y m d, 1 ≤ y ∧ y ≤ 9999 ∧ 1 ≤ m ∧ m ≤ 12 ∧ 1 ≤ d ∧ d ≤ 31 ∧
        r.date = formatDate y m d ∧ (1000 ≤ y → isYYYYMMDD r.date = true) := by
  intro rows pair l h
  unfold parse_exchange_data at h
  split at h
  · exact Option.noConfusion h
  · split at h
    · exact Option.noConfusion h
    · rename_i hne hdat
      have hl : l = rows.filterMap (parseRow pair) := ((Option.some.injEq _ _).mp h).symm
      constructor
      · subst hl
        intro hnil
        exact hdat (by rw [hnil]; rfl)
      · intro r hr
        rw [hl] at hr
        obtain ⟨cols, hcols, hrow⟩ := List.mem_filterMap.mp hr
        obtain ⟨y, m, d, o, hi, lo, cl, adj, v, hdate, hplace, h1, h2, h3, h4, h5, h6, hreq⟩ :=
          parseRow_some_inv pair cols r hrow
        obtain ⟨hb1, hb2, hb3, hb4, hb5, hb6⟩ := parseDate_bounds _ y m d hdate
        subst hreq
        exact ⟨rfl, y, m, d, hb1, hb2, hb3, hb4, hb5, hb6, rfl,
          fun hy => isYYYYMMDD_formatDate y m d hy hb2⟩

def oneRecordP : RateRecord :=
  { currency_pair := "P", date := "2024-01-05", open_rate := ⟨1, 0⟩,
    high_rate := ⟨2, 0⟩, low_rate := ⟨3, 0⟩, close_rate := ⟨4, 0⟩,
    adj_close := ⟨5, 0⟩, volume := 6 }

/-- Witness for C10: the amended shape theorem instantiated on a one-row
content whose single row parses successfully. -/
theorem parse_result_shape_witness :
    [oneRecordP] ≠ ([] : List RateRecord) ∧
    ∀ r ∈ [oneRecordP], r.currency_pair = "P" ∧
      ∃ y m d, 1 ≤ y ∧ y ≤ 9999 ∧ 1 ≤ m ∧ m ≤ 12 ∧ 1 ≤ d ∧ d ≤ 31 ∧
        r.date = formatDate y m d ∧ (1000 ≤ y → isYYYYMMDD r.date = true) :=
  parse_result_shape [["Jan 5, 2024", "1", "2", "3", "4", "5", "6"]] "P" [oneRecordP]
    (by decide)

def oldYearRecordP : RateRecord :=
  { currency_pair := "P", date := "50-01-05", open_rate := ⟨1, 0⟩,
    high_rate := ⟨2, 0⟩, low_rate := ⟨3, 0⟩, close_rate := ⟨4, 0⟩,
    adj_close := ⟨5, 0⟩, volume := 6 }

/-- C10 counterexample.  A structurally valid row dated `"Jan 5, 0050"`
(4 year digits, as `strptime('%Y')` requires) parses successfully, and the
resulting record's date is `"50-01-05"` — `strftime('%Y')` renders the year
without padding — which is not in `YYYY-MM-DD` format. -/
theorem parse_date_format_counterexample :
    parse_exchange_data [["Jan 5, 0050", "1", "2", "3", "4", "5", "6"]] "P" =
      some [oldYearRecordP] ∧
    oldYearRecordP.date = "50-01-05" ∧ isYYYYMMDD "50-01-05" = false := by
  refine ⟨by decide, rfl, by decide⟩

/-- C5 (amended).  For a candidate row (at least 7 positional fields):
a blank or placeholder token (`"-"`, `""`, `"null"`, `"None"`) or otherwise
non-numeric value in any of open/high/low/close/adj-close skips the row; an
unparsable date skips the row; a `"-"` in the volume field maps to
`volume = 0`; but — contrary to the claim — the other placeholder tokens
(`""`, `"null"`, `"None"`) in the volume field do not map to 0: only
`"-"` is special-cased, and `int('null')` raises `ValueError`, so such rows
are skipped.  All failure modes are total (`parseRow` returns `none`, the
loop continues): nothing raises. -/
theorem parse_row_filtering :
    ∀ (pair c0 c1 c2 c3 c4 c5 c6 : String) (rest : List String),
    ((∃ c ∈ [c1, c2, c3, c4, c5], PLACEHOLDERS.contains (pyStrip c) = true) →
      parseRow pair (c0 :: c1 :: c2 :: c3 :: c4 :: c5 :: c6 :: rest) = none) ∧
    ((∃ c ∈ [c1, c2, c3, c4, c5], pyFloat? (stripCommas c) = none) →
      parseRow pair (c0 :: c1 :: c2 :: c3 :: c4 :: c5 :: c6 :: rest) = none) ∧
    (parseDate (pyStrip c0) = none →
      parseRow pair (c0 :: c1 :: c2 :: c3 :: c4 :: c5 :: c6 :: rest) = none) ∧
    (pyStrip c6 = "-" → ∀ r,
      parseRow pair (c0 :: c1 :: c2 :: c3 :: c4 :: c5 :: c6 :: rest) = some r →
      r.volume = 0) ∧
    ((c6 = "" ∨ c6 = "null" ∨ c6 = "None") →
      parseRow pair (c0 :: c1 :: c2 :: c3 :: c4 :: c5 :: c6 :: rest) = none) := by
  intro pair c0 c1 c2 c3 c4 c5 c6 rest
  refine ⟨?_, ?_, ?_, ?_, ?_⟩
  · intro hex
    rcases hop : parseRow pair (c0 :: c1 :: c2 :: c3 :: c4 :: c5 :: c6 :: rest) with _ | r
    · rfl
    · exfalso
      obtain ⟨y, m, d, o, hi, lo, cl, adj, v, hdate, hplace, h1, h2, h3, h4, h5, h6, hreq⟩ :=
        parseRow_some_inv _ _ r hop
      simp only [List.drop_succ_cons, List.drop_zero, List.take_succ_cons,
        List.take_zero] at hplace
      obtain ⟨c, hc, hcp⟩ := hex
      have hany : (([c1, c2, c3, c4, c5] : List String).any
          (fun c => PLACEHOLDERS.contains (pyStrip c))) = true :=
        List.any_eq_true.mpr ⟨c, hc, hcp⟩
      rw [hplace] at hany
      exact Bool.noConfusion hany
  · intro hex
    rcases hop : parseRow pair (c0 :: c1 :: c2 :: c3 :: c4 :: c5 :: c6 :: rest) with _ | r
    · rfl
    · exfalso
      obtain ⟨y, m, d, o, hi, lo, cl, adj, v, hdate, hplace, h1, h2, h3, h4, h5, h6, hreq⟩ :=
        parseRow_some_inv _ _ r hop
      simp only [List.getD_cons_succ, List.getD_cons_zero] at h1 h2 h3 h4 h5
      obtain ⟨c, hc, hcf⟩ := hex
      simp only [List.mem_cons, List.not_mem_nil, or_false] at hc
      rcases hc with rfl | rfl | rfl | rfl | rfl
      · rw [hcf] at h1; exact Option.noConfusion h1
      · rw [hcf] at h2; exact Option.noConfusion h2
      · rw [hcf] at h3; exact Option.noConfusion h3
      · rw [hcf] at h4; exact Option.noConfusion h4
      · rw [hcf] at h5; exact Option.noConfusion h5
  · intro hnone
    rcases hop : parseRow pair (c0 :: c1 :: c2 :: c3 :: c4 :: c5 :: c6 :: rest) with _ | r
    · rfl
    · exfalso
      obtain ⟨y, m, d, o, hi, lo, cl, adj, v, hdate, hplace, h1, h2, h3, h4, h5, h6, hreq⟩ :=
        parseRow_some_inv _ _ r hop
      simp only [List.getD_cons_zero] at hdate
      rw [hnone] at hdate
      exact Option.noConfusion hdate
  · intro hdash r hsome
    obtain ⟨y, m, d, o, hi, lo, cl, adj, v, hdate, hplace, h1, h2, h3, h4, h5, h6, hreq⟩ :=
      parseRow_some_inv _ _ r hsome
    simp only [List.getD_cons_succ, List.getD_cons_zero] at h6
    rw [if_pos hdash] at h6
    subst hreq
    exact ((Option.some.injEq _ _).mp h6).symm
  · intro hc6
    rcases hop : parseRow pair (c0 :: c1 :: c2 :: c3 :: c4 :: c5 :: c6 :: rest) with _ | r
    · rfl
    · exfalso
      obtain ⟨y, m, d, o, hi, lo, cl, adj, v, hdate, hplace, h1, h2, h3, h4, h5, h6, hreq⟩ :=
        parseRow_some_inv _ _ r hop
      simp only [List.getD_cons_succ, List.getD_cons_zero] at h6
      rcases hc6 with rfl | rfl | rfl
      · rw [if_neg (by decide)] at h6
        rw [show pyInt? (stripCommas "") = none from by decide] at h6
        exact Option.noConfusion h6
      · rw [if_neg (by decide)] at h6
        rw [show pyInt? (stripCommas "null") = none from by decide] at h6
        exact Option.noConfusion h6
      · rw [if_neg (by decide)] at h6
        rw [show pyInt? (stripCommas "None") = none from by decide] at h6
        exact Option.noConfusion h6

def dashVolumeRecord : RateRecord :=
  { currency_pair := "P", date := "2024-01-05", open_rate := ⟨1, 0⟩,
    high_rate := ⟨2, 0⟩, low_rate := ⟨3, 0⟩, close_rate := ⟨4, 0⟩,
    adj_close := ⟨5, 0⟩, volume := 0 }

/-- Witness for C5: each filtering clause instantiated on a concrete
7-field row. -/
theorem parse_row_filtering_witness :
    parseRow "P" ["Jan 5, 2024", "-", "2", "3", "4", "5", "6"] = none ∧
    parseRow "P" ["Jan 5, 2024", "1", "abc", "3", "4", "5", "6"] = none ∧
    parseRow "P" ["Foo 1, 2024", "1", "2", "3", "4", "5", "6"] = none ∧
    dashVolumeRecord.volume = 0 ∧
    parseRow "P" ["Jan 5, 2024", "1", "2", "3", "4", "5", "null"] = none :=
  ⟨(parse_row_filtering "P" "Jan 5, 2024" "-" "2" "3" "4" "5" "6" []).1
      ⟨"-", by decide, by decide⟩,
   (parse_row_filtering "P" "Jan 5, 2024" "1" "abc" "3" "4" "5" "6" []).2.1
      ⟨"abc", by decide, by decide⟩,
   (parse_row_filtering "P" "Foo 1, 2024" "1" "2" "3" "4" "5" "6" []).2.2.1 (by decide),
   (parse_row_filtering "P" "Jan 5, 2024" "1" "2" "3" "4" "5" "-" []).2.2.2.1 (by decide)
      dashVolumeRecord (by decide),
   (parse_row_filtering "P" "Jan 5, 2024" "1" "2" "3" "4" "5" "null" []).2.2.2.2
      (Or.inr (Or.inl rfl))⟩

/-- C5 counterexample.  A row whose volume cell is the placeholder token
`"null"` is not kept with `volume = 0` as the claim states: only `"-"` is
special-cased; `int('null')` raises `ValueError`, the row is skipped, and a
content consisting of that single row parses to `None`.  The second conjunct
shows the contrasting `"-"` behaviour the claim generalised from. -/
theorem parse_volume_placeholder_counterexample :
    parse_exchange_data [["Jan 5, 2024", "1", "2", "3", "4", "5", "null"]] "GBPINR=X" =
      none ∧
    (parse_exchange_data [["Jan 5, 2024", "1", "2", "3", "4", "5", "-"]] "GBPINR=X").map
      (fun l => l.map RateRecord.volume) = some [0] := by
  constructor <;> decide

/-- C7 (amended).  `parse_exchange_data` returns `None` both when the
content yields zero structurally valid rows (no `tr` rows at all — and rows
with fewer than 7 fields are silently skipped, leading to the same exit) and
when structurally valid rows exist but every row fails field validation: the
two cases produce the same outcome (`None`), so callers cannot
distinguish "source format changed" from "no valid quotes in range". -/
theorem parse_none_cases :
    (∀ pair : String, parse_exchange_data [] pair = none) ∧
    (∀ (pair : String) (rows : List (List String)),
      (∀ cols ∈ rows, parseRow pair cols = none) →
      parse_exchange_data rows pair = none) := by
  constructor
  · intro pair
    rfl
  · intro pair rows hall
    unfold parse_exchange_data
    split
    · rfl
    · have hnil : rows.filterMap (parseRow pair) = [] := List.filterMap_eq_nil_iff.mpr hall
      rw [hnil]
      rfl

/-- Witness for C7: the amended theorem instantiated on the empty content
and on a single structurally valid row whose five price fields are all
placeholders. -/
theorem parse_none_cases_witness :
    parse_exchange_data [] "GBPINR=X" = none ∧
    parse_exchange_data [["Jan 5, 2024", "-", "-", "-", "-", "-", "7"]] "GBPINR=X" =
      none :=
  ⟨parse_none_cases.1 "GBPINR=X",
   parse_none_cases.2 "GBPINR=X" _ (by
      intro cols hc
      simp only [List.mem_singleton] at hc
      subst hc
      decide)⟩

/-- C7 counterexample.  The claim requires two *distinct* outcomes; the
code returns the same `None` for content with no structurally valid row at
all (empty row list, or a lone 1-field row) and for content whose single
7-field row merely fails validation (close-rate `"-"`), so no caller can tell
the cases apart. -/
theorem parse_none_indistinguishable_counterexample :
    parse_exchange_data [] "GBPINR=X" = none ∧
    parse_exchange_data [["onlyfield"]] "GBPINR=X" = none ∧
    parse_exchange_data [["Jan 5, 2024", "2", "3", "4", "-", "5", "7"]] "GBPINR=X" =
      none := by
  refine ⟨rfl, by decide, by decide⟩

/-! ## FetchCache

Embedding of

    @lru_cache(maxsize=32)
    def _fetch_chunk(self, quote, from_date, to_date):
        try:
            return self._fetch_data_with_retry(quote, from_date, to_date)
        except Exception as e:
            logger.error(...)
            return None

for one scraper instance (the `self` component of the key is constant).
`functools.lru_cache` stores every returned value — `_fetch_chunk`
catches all exceptions and returns `None`, so failures are returned values
and are cached like successes.  The cache is a most-recently-used-first
association list bounded by `maxsize`; a hit moves the entry to the front
without calling the wrapped function, a miss calls it (the call counter
indexes an oracle for the outcome), inserts the result at the front and
drops the least recently used entry beyond `maxsize`. -/

structure CacheState where
  entries : List ((String × String × String) × Option String)
  calls : Nat
deriving DecidableEq, Repr

def fetchChunkCached (oracle : Nat → Option String) (maxsize : Nat)
    (k : String × String × String) (st : CacheState) : Option String × CacheState :=
  match st.entries.find? (fun e => e.1 = k) with
  | some e =>
    (e.2, { entries := e :: st.entries.filter (fun x => x.1 ≠ k), calls := st.calls })
  | none =>
    (oracle st.calls,
     { entries := ((k, oracle st.calls) :: st.entries).take maxsize,
       calls := st.calls + 1 })

def runFetches (oracle : Nat → Option String) (maxsize : Nat) :
    List (String × String × String) → CacheState → List (Option String) × CacheState
  | [], st => ([], st)
  | k :: ks, st =>
    let r := fetchChunkCached oracle maxsize k st
    let rest := runFetches oracle maxsize ks r.2
    (r.1 :: rest.1, rest.2)

theorem fetchChunkCached_size (oracle : Nat → Option String) (maxsize : Nat)
    (k : String × String × String) (st : CacheState)
    (h : st.entries.length ≤ maxsize) :
    (fetchChunkCached oracle maxsize k st).2.entries.length ≤ maxsize := by
  unfold fetchChunkCached
  split
  · rename_i e hfind
    have hmem : e ∈ st.entries := List.mem_of_find?_eq_some hfind
    have hkey : e.1 = k := by
      have := List.find?_some hfind
      simpa using this
    have hlt : (st.entries.filter (fun x => x.1 ≠ k)).length < st.entries.length := by
      apply List.length_filter_lt_length_iff_exists.mpr
      exact ⟨e, hmem, by simp [hkey]⟩
    simp only [List.length_cons]
    omega
  · simp only [List.length_take_le]

theorem runFetches_size (oracle : Nat → Option String) (maxsize : Nat)
    (ks : List (String × String × String)) : ∀ st : CacheState,
    st.entries.length ≤ maxsize →
    (runFetches oracle maxsize ks st).2.entries.length ≤ maxsize := by
  induction ks with
  | nil => intro st h; exact h
  | cons k ks ih =>
    intro st h
    exact ih _ (fetchChunkCached_size oracle maxsize k st h)

/-- C8 (amended).  The per-instance fetch cache is keyed by
`(pair, window.from, window.to)`, bounded by 32 entries with
least-recently-used eviction (a hit refreshes the entry, a miss inserts at
the most-recent end and evicts beyond capacity) — but it caches every
result, failures included: `_fetch_chunk` converts any fetch error to a
returned `None`, which `lru_cache` stores like any value, so a subsequent
call with the same key returns the cached `None` without fetching again. -/
theorem fetch_cache_spec :
    (∀ (oracle : Nat → Option String) (ks : List (String × String × String)),
      (runFetches oracle 32 ks { entries := [], calls := 0 }).2.entries.length ≤ 32) ∧
    (∀ (oracle : Nat → Option String) (k : String × String × String)
        (st : CacheState) (e : (String × String × String) × Option String),
      st.entries.find? (fun x => x.1 = k) = some e →
      (fetchChunkCached oracle 32 k st).1 = e.2 ∧
      (fetchChunkCached oracle 32 k st).2.calls = st.calls) ∧
    (∀ (oracle : Nat → Option String) (k : String × String × String) (st : CacheState),
      st.entries.find? (fun x => x.1 = k) = none →
      (fetchChunkCached oracle 32 k st).1 = oracle st.calls ∧
      (fetchChunkCached oracle 32 k st).2.entries.head? = some (k, oracle st.calls) ∧
      (fetchChunkCached oracle 32 k st).2.calls = st.calls + 1) := by
  refine ⟨fun oracle ks => runFetches_size oracle 32 ks _ (by simp), ?_, ?_⟩
  · intro oracle k st e hfind
    unfold fetchChunkCached
    rw [hfind]
    exact ⟨rfl, rfl⟩
  · intro oracle k st hfind
    unfold fetchChunkCached
    rw [hfind]
    refine ⟨rfl, ?_, rfl⟩
    show (((k, oracle st.calls) :: st.entries).take 32).head? = _
    rw [List.take_cons (by omega : 0 < 32)]
    rfl

def flakyOracle : Nat → Option String := fun n => if n = 0 then none else some "content"

/-- Witness for C8: capacity bound on a concrete request list; a cached
`None` entry served from the cache without a second fetch; a miss inserting
its (failed) result at the most-recent end. -/
theorem fetch_cache_spec_witness :
    (runFetches flakyOracle 32 [("GBPINR=X", "0", "100")]
      { entries := [], calls := 0 }).2.entries.length ≤ 32 ∧
    ((fetchChunkCached flakyOracle 32 ("GBPINR=X", "0", "100")
        { entries := [(("GBPINR=X", "0", "100"), none)], calls := 1 }).1 = none ∧
      (fetchChunkCached flakyOracle 32 ("GBPINR=X", "0", "100")
        { entries := [(("GBPINR=X", "0", "100"), none)], calls := 1 }).2.calls = 1) ∧
    ((fetchChunkCached flakyOracle 32 ("GBPINR=X", "0", "100")
        { entries := [], calls := 0 }).1 = flakyOracle 0 ∧
      (fetchChunkCached flakyOracle 32 ("GBPINR=X", "0", "100")
        { entries := [], calls := 0 }).2.entries.head? =
        some (("GBPINR=X", "0", "100"), flakyOracle 0) ∧
      (fetchChunkCached flakyOracle 32 ("GBPINR=X", "0", "100")
        { entries := [], calls := 0 }).2.calls = 0 + 1) :=
  ⟨fetch_cache_spec.1 flakyOracle [("GBPINR=X", "0", "100")],
   fetch_cache_spec.2.1 flakyOracle ("GBPINR=X", "0", "100")
     { entries := [(("GBPINR=X", "0", "100"), none)], calls := 1 }
     (("GBPINR=X", "0", "100"), none) (by decide),
   fetch_cache_spec.2.2 flakyOracle ("GBPINR=X", "0", "100")
     { entries := [], calls := 0 } (by decide)⟩

/-- C8 counterexample.  With an oracle that fails on the first underlying
fetch and would succeed on the second, two successive calls for the same
`(pair, from, to)` key return `[none, none]` with only one underlying
fetch performed and the failure stored in the cache — contradicting the claim
that a failed fetch is not cached and that the subsequent call performs the
fetch again (which would have returned `some "content"` and made 2 calls). -/
theorem fetch_cache_counterexample :
    runFetches flakyOracle 32 [("GBPINR=X", "0", "100"), ("GBPINR=X", "0", "100")]
      { entries := [], calls := 0 } =
      ([none, none], { entries := [(("GBPINR=X", "0", "100"), none)], calls := 1 }) := by
  decide

/-! ## Orchestrator

Embedding of the fan-out/fan-in part of `get_exchange_data`
(`scraper.py` lines 76-100) and of `process_single_pair`
(`routes.py` lines 154-225).

`get_exchange_data` submits one `_fetch_and_save_chunk` task per window and
collects results with `as_completed`, i.e. in a nondeterministic completion
order; a chunk whose fetch failed (or whose per-chunk save raised inside the
future) contributes nothing (`if data:` drops it), and the surviving raw
contents are concatenated.  The embedding takes the per-window outcome as a
function `fetchChunk` and the completion order as an explicit list
`completed` (theorems quantify over all permutations of the planned chunks).
Content is carried at the extracted-row level, so concatenation of markup is
`List.flatten`.

`process_single_pair` fetches the combined content, parses it, saves it, and
then reports, per period string, `success` with the count of records whose
date falls inside the period, or an `error` entry when fetch or parse
produced nothing.  The date cutoff `strptime(date) >= end_date - delta` is
abstracted by a predicate `inPeriod`; the save step does not influence the
summary. -/

def get_exchange_data (fetchChunk : Int × Int → Option (List (List String)))
    (completed : List (Int × Int)) : Option (List (List String)) :=
  if (completed.filterMap fetchChunk).isEmpty then none
  else some (completed.filterMap fetchChunk).flatten

structure PeriodResult where
  status : String
  records : Option Nat
  message : Option String
deriving DecidableEq, Repr

def PERIODS : List String := ["1W", "1M", "3M", "6M", "1Y"]

def process_single_pair (pair : String)
    (fetchChunk : Int × Int → Option (List (List String)))
    (completed : List (Int × Int))
    (inPeriod : String → String → Bool) : List (String × PeriodResult) :=
  match get_exchange_data fetchChunk completed with
  | none => PERIODS.map (fun p => (p, ⟨"error", none, some "Failed to fetch data"⟩))
  | some content =>
    match parse_exchange_data content pair with
    | none => PERIODS.map (fun p => (p, ⟨"error", none, some "No data found"⟩))
    | some recs =>
      PERIODS.map (fun p =>
        (p, ⟨"success", some ((recs.filter (fun r => inPeriod p r.date)).length), none⟩))

/-- C9 (amended).  For `from_epoch >= to_epoch` the chunk-planning loop
body never runs: the planner returns zero windows and `get_exchange_data`
returns `None` — there is no `InvalidRangeError` anywhere in the code, no
failure is raised, and nothing is retried. -/
theorem invalid_range_returns_none (f t : Int)
    (fetchChunk : Int × Int → Option (List (List String)))
    (completed : List (Int × Int)) (h : t ≤ f)
    (hperm : completed.Perm (planChunks f t)) :
    planChunks f t = [] ∧ get_exchange_data fetchChunk completed = none := by
  have hnil : planChunks f t = [] := by
    unfold planChunks
    have h0 : (t - f).toNat = 0 := by omega
    rw [h0]
    rfl
  refine ⟨hnil, ?_⟩
  rw [hnil] at hperm
  have hc : completed = [] := List.Perm.eq_nil hperm
  subst hc
  rfl

/-- Witness for C9: the degenerate range `[5, 5]`. -/
theorem invalid_range_returns_none_witness :
    planChunks 5 5 = [] ∧ get_exchange_data (fun _ => none) [] = none :=
  invalid_range_returns_none 5 5 (fun _ => none) [] (by norm_num) (by decide)

/-- C9 counterexample.  The claim predicts a fatal `InvalidRangeError`
for `from_epoch >= to_epoch`; the code defines no such error and the call
completes normally, producing zero chunks and the ordinary no-data result
`None` (also for `from_epoch > to_epoch`). -/
theorem invalid_range_counterexample :
    planChunks 5 5 = [] ∧
    planChunks 7 3 = [] ∧
    get_exchange_data (fun _ => some [["row"]]) (planChunks 5 5) = none := by
  refine ⟨rfl, rfl, rfl⟩

/-- C6 (confirmed).  A 104-day range (8985600 seconds) is split into
exactly 2 chunks; if the first chunk's pipeline yields content with 60 valid
rows while the second fails terminally (fetch failure after retries, or a
per-chunk exception — both make that future contribute nothing), then for any
completion order the combined content still parses to the 60 records, the
per-pair summary carries an entry for every period, and the `"3M"` period is
reported as `success` with at most 60 records; the sync call returns a
summary without raising. -/
theorem orchestrator_failure_isolation (pair : String) (f t : Int)
    (fetchChunk : Int × Int → Option (List (List String)))
    (completed : List (Int × Int)) (rows60 : List (List String))
    (recs : List RateRecord) (inPeriod : String → String → Bool)
    (ht : t = f + 8985600)
    (hperm : completed.Perm (planChunks f t))
    (hc1 : fetchChunk (f, f + 7776000) = some rows60)
    (hc2 : fetchChunk (f + 7776001, f + 8985600) = none)
    (hparse : parse_exchange_data rows60 pair = some recs)
    (hlen : recs.length = 60) :
    planChunks f t = [(f, f + 7776000), (f + 7776001, f + 8985600)] ∧
    (∃ n, n ≤ 60 ∧ ("3M", (⟨"success", some n, none⟩ : PeriodResult)) ∈
      process_single_pair pair fetchChunk completed inPeriod) ∧
    (process_single_pair pair fetchChunk completed inPeriod).map Prod.fst = PERIODS := by
  subst ht
  have hplan : planChunks f (f + 8985600) =
      [(f, f + 7776000), (f + 7776001, f + 8985600)] := by
    unfold planChunks
    have h0 : (f + 8985600 - f).toNat = 8985600 := by omega
    rw [h0]
    show planChunksAux (f + 8985600) (8985599 + 1) f = _
    unfold planChunksAux
    rw [if_pos (by omega), threeMonths_eq, min_eq_left (by omega)]
    congr 1
    rw [show f + 7776000 + 1 = f + 7776001 by ring]
    show planChunksAux (f + 8985600) (8985598 + 1) (f + 7776001) = _
    unfold planChunksAux
    rw [if_pos (by omega), threeMonths_eq, min_eq_right (by omega)]
    rw [planChunksAux_nil _ _ _ (by omega)]
  have hfm : ([(f, f + 7776000), (f + 7776001, f + 8985600)].filterMap fetchChunk) =
      [rows60] := by
    simp [List.filterMap_cons, hc1, hc2]
  have hdp : completed.filterMap fetchChunk = [rows60] := by
    have hp2 := List.Perm.filterMap fetchChunk hperm
    rw [hplan, hfm] at hp2
    exact List.perm_singleton.mp hp2
  have hget : get_exchange_data fetchChunk completed = some rows60 := by
    unfold get_exchange_data
    rw [hdp]
    simp
  have hsum : process_single_pair pair fetchChunk completed inPeriod =
      PERIODS.map (fun p =>
        (p, ⟨"success", some ((recs.filter (fun r => inPeriod p r.date)).length),
          none⟩)) := by
    unfold process_single_pair
    simp only [hget, hparse]
  refine ⟨hplan,
    ⟨(recs.filter (fun r => inPeriod "3M" r.date)).length, ?_, ?_⟩, ?_⟩
  · rw [← hlen]
    exact List.length_filter_le _ _
  · rw [hsum]
    exact List.mem_map.mpr ⟨"3M", by simp [PERIODS], rfl⟩
  · rw [hsum, List.map_map]
    rfl

def gRow : List String := ["Jan 5, 2024", "1", "2", "3", "4", "5", "6"]

def gRecord : RateRecord :=
  { currency_pair := "GBPINR=X", date := "2024-01-05", open_rate := ⟨1, 0⟩,
    high_rate := ⟨2, 0⟩, low_rate := ⟨3, 0⟩, close_rate := ⟨4, 0⟩,
    adj_close := ⟨5, 0⟩, volume := 6 }

def wFetch : Int × Int → Option (List (List String)) :=
  fun w => if w = (0, 7776000) then some (List.replicate 60 gRow) else none

/-- Witness for C6: the 104-day scenario instantiated concretely — range
`[0, 8985600]`, chunk 1 fetches 60 valid rows, chunk 2 fails, submission
order as completion order. -/
theorem orchestrator_failure_isolation_witness :
    planChunks 0 8985600 = [(0, 0 + 7776000), (0 + 7776001, 0 + 8985600)] ∧
    (∃ n, n ≤ 60 ∧ ("3M", (⟨"success", some n, none⟩ : PeriodResult)) ∈
      process_single_pair "GBPINR=X" wFetch (planChunks 0 8985600)
        (fun _ _ => true)) ∧
    (process_single_pair "GBPINR=X" wFetch (planChunks 0 8985600)
      (fun _ _ => true)).map Prod.fst = PERIODS :=
  orchestrator_failure_isolation "GBPINR=X" 0 8985600 wFetch (planChunks 0 8985600)
    (List.replicate 60 gRow) (List.replicate 60 gRecord) (fun _ _ => true)
    (by norm_num) (List.Perm.refl _) rfl rfl (by decide) (by simp)
